import Mathlib

/-!
Shallow embedding of the trace-visualization engine of the VectorSurfer
demo frontend (trace detail page: waterfall view, tree view, error list).

JavaScript numbers (timestamps in milliseconds obtained from
`new Date(...).getTime()`, durations, percentages) are modelled as exact
rationals; the source's `0.5` literal is the rational `1/2`.
-/

/-- Span status, the closed set from the data model:
SUCCESS, ERROR, CACHE_HIT, PARTIAL, NOT_FOUND.
The PARTIAL member is named `part` here. -/
inductive Status where
  | success
  | error
  | cacheHit
  | part
  | notFound
deriving DecidableEq, Repr

/-- One span record as consumed by the trace detail page.
`startTime` is the millisecond timestamp `new Date(span.start_time).getTime()`. -/
structure Span where
  spanId : String
  functionName : String
  startTime : ℚ
  durationMs : ℚ
  status : Status
  errorCode : Option String
  errorMessage : Option String
  depth : Option ℕ
deriving DecidableEq, Repr

/-- A waterfall row: the input span annotated with its geometry, as produced
by `WaterfallView.processedSpans` (`return { ...span, offsetPercent, widthPercent }`). -/
@[ext]
structure WaterfallSpan where
  span : Span
  offsetPercent : ℚ
  widthPercent : ℚ
deriving DecidableEq, Repr

/-- `Math.min(...xs)` over a nonempty argument list, seeded with one element. -/
def jsMinList (x : ℚ) (xs : List ℚ) : ℚ := xs.foldl min x

/-- The body of the `spans.map` callback in `WaterfallView.processedSpans`:
`offsetMs = spanStart - minStart`;
`offsetPercent = totalDuration > 0 ? (offsetMs / totalDuration) * 100 : 0`;
`widthPercent = totalDuration > 0 ? (span.duration_ms / totalDuration) * 100 : 0`,
returned as `Math.max(widthPercent, 0.5)`. -/
def layoutOne (minStart totalDuration : ℚ) (s : Span) : WaterfallSpan :=
  let offsetMs := s.startTime - minStart
  let offsetPercent := if 0 < totalDuration then offsetMs / totalDuration * 100 else 0
  let widthPercent := if 0 < totalDuration then s.durationMs / totalDuration * 100 else 0
  ⟨s, offsetPercent, max widthPercent (1/2)⟩

/-- `WaterfallView.processedSpans`: empty input short-circuits to `[]`;
otherwise `minStart = Math.min(...spans.map(s => getTime(s.start_time)))`
is computed once and every span is mapped to its annotated row. -/
def processedSpans : List Span → ℚ → List WaterfallSpan
  | [], _ => []
  | s0 :: rest, totalDuration =>
      (s0 :: rest).map
        (layoutOne (jsMinList s0.startTime (rest.map Span.startTime)) totalDuration)

/-- A node of the tree endpoint's response shape `Span & { children?: Span[] }`:
a span together with its ordered child subtrees. -/
inductive SpanTree where
  | node : Span → List SpanTree → SpanTree

def SpanTree.span : SpanTree → Span
  | .node s _ => s

def SpanTree.children : SpanTree → List SpanTree
  | .node _ cs => cs

/-- The mounted-component state of a rendered `TreeNode` subtree: the span
subtree it renders, its `useState` boolean `expanded`, and the mounted states
of its currently rendered children (empty while the node is collapsed, since
React unmounts children that are not rendered). -/
inductive MTree where
  | node : SpanTree → Bool → List MTree → MTree

def MTree.tree : MTree → SpanTree
  | .node t _ _ => t

mutual

/-- The mount state produced by first rendering a subtree: `useState(true)`
at every node, so every node starts expanded with all children mounted. -/
def initM : SpanTree → MTree
  | SpanTree.node s cs => MTree.node (SpanTree.node s cs) true (initMList cs)

def initMList : List SpanTree → List MTree
  | [] => []
  | c :: cs => initM c :: initMList cs

end

mutual

/-- The span ids rendered by a `TreeNode` subtree, in render order: the node
itself, then — exactly when `hasChildren && expanded` — the children's
rendered ids (mirroring the JSX `hasChildren && expanded && children.map(...)`). -/
def visibleIds : MTree → List String
  | MTree.node t e kids =>
      (t.span).spanId :: (if !t.children.isEmpty && e then visibleIdsList kids else [])

def visibleIdsList : List MTree → List String
  | [] => []
  | m :: ms => visibleIds m ++ visibleIdsList ms

end

mutual

/-- `setExpanded(!expanded)` at the node addressed by a path of child indices.
Collapsing unmounts the children (their component state is discarded);
expanding mounts them afresh, each with the default `useState(true)`. -/
def toggleAt : List ℕ → MTree → MTree
  | [], MTree.node t e _ =>
      if e then MTree.node t false []
      else MTree.node t true (initMList t.children)
  | i :: p, MTree.node t e kids => MTree.node t e (toggleKids i p kids)

def toggleKids : ℕ → List ℕ → List MTree → List MTree
  | _, _, [] => []
  | 0, p, m :: ms => toggleAt p m :: ms
  | i + 1, p, m :: ms => m :: toggleKids i p ms

end

/-- The mounted subtree addressed by a path of child indices, if any. -/
def nodeAtM : List ℕ → MTree → Option MTree
  | [], m => some m
  | i :: p, MTree.node _ _ kids =>
      match kids.get? i with
      | some k => nodeAtM p k
      | none => none

/-- The span subtree addressed by a path of child indices, if any. -/
def nodeAtT : List ℕ → SpanTree → Option SpanTree
  | [], t => some t
  | i :: p, t =>
      match t.children.get? i with
      | some c => nodeAtT p c
      | none => none

/-- A node of the input forest, addressed by a root index and a path of
child indices below that root. -/
def nodeAtForest (f : List SpanTree) (i : ℕ) (p : List ℕ) : Option SpanTree :=
  match f.get? i with
  | some t => nodeAtT p t
  | none => none

mutual

/-- The `(spanId, depth)` pairs of the rendered tree in its default
fully-expanded state: `TreeView` renders each root with `depth = 0` (the
`TreeNode` default) and each `TreeNode` renders its children with `depth + 1`. -/
def renderDepths : SpanTree → ℕ → List (String × ℕ)
  | SpanTree.node s cs, d => (s.spanId, d) :: renderDepthsList cs (d + 1)

def renderDepthsList : List SpanTree → ℕ → List (String × ℕ)
  | [], _ => []
  | t :: ts, d => renderDepths t d ++ renderDepthsList ts d

end

/-- The "Errors in Trace" rows: `trace.spans.filter(s => s.status === 'ERROR')`
mapped to the displayed function name, error code and error message. -/
def errorList (spans : List Span) : List (String × Option String × Option String) :=
  (spans.filter (fun s => decide (s.status = Status.error))).map
    (fun s => (s.functionName, s.errorCode, s.errorMessage))

/-- Modelled from the spec: the aggregate status shown at the top of the trace
page is the server-provided `trace.status`, whose derivation is not part of
this repository's client source; per the spec it is `ERROR` if any span has
`status = ERROR`, else the success-side domain rule applies. -/
def aggregateStatus (spans : List Span) : Status :=
  if spans.any (fun s => decide (s.status = Status.error)) then Status.error
  else Status.success

/-- A minimal span with the given id, for concrete tree fixtures. -/
def mkSpan (i : String) : Span := ⟨i, i, 0, 0, Status.success, none, none, none⟩

def tC : SpanTree := SpanTree.node (mkSpan "C") []

def tB : SpanTree := SpanTree.node (mkSpan "B") [tC]

def tA : SpanTree := SpanTree.node (mkSpan "A") [tB]

/-- Concrete fixture: a successful span starting at 10 ms lasting 30 ms. -/
def spanA : Span := ⟨"a", "fa", 10, 30, Status.success, none, none, none⟩

/-- Concrete fixture: a successful span starting at 60 ms lasting 40 ms. -/
def spanB : Span := ⟨"b", "fb", 60, 40, Status.success, none, none, none⟩

/-- Concrete fixture: an errored span with code and message. -/
def spanE : Span := ⟨"e", "fe", 20, 5, Status.error, some "E42", some "boom", none⟩

/-- Concrete fixture: the waterfall row the layout produces for `spanA` in the
two-span trace `[spanA, spanB]` with total duration 100 ms. -/
def wA : WaterfallSpan :=
  layoutOne (jsMinList spanA.startTime ([spanB].map Span.startTime)) 100 spanA

/- ======================  helper lemmas  ====================== -/

theorem jsMinList_le (x : ℚ) (xs : List ℚ) : ∀ y ∈ x :: xs, jsMinList x xs ≤ y := by
  induction xs generalizing x with
  | nil =>
    intro y hy
    rcases List.mem_singleton.mp hy with rfl
    exact le_refl _
  | cons z zs ih =>
    intro y hy
    have hmin : jsMinList x (z :: zs) = jsMinList (min x z) zs := rfl
    have hhead := ih (min x z) (min x z) (List.mem_cons_self _ _)
    rw [hmin]
    rcases List.mem_cons.mp hy with rfl | hy'
    · exact le_trans hhead (min_le_left _ _)
    · rcases List.mem_cons.mp hy' with rfl | hy''
      · exact le_trans hhead (min_le_right _ _)
      · exact ih (min x z) y (List.mem_cons_of_mem _ hy'')

theorem jsMinList_mem (x : ℚ) (xs : List ℚ) : jsMinList x xs ∈ x :: xs := by
  induction xs generalizing x with
  | nil => simp [jsMinList]
  | cons z zs ih =>
    have hmin : jsMinList x (z :: zs) = jsMinList (min x z) zs := rfl
    rw [hmin]
    rcases List.mem_cons.mp (ih (min x z)) with h1 | h1
    · rcases min_choice x z with h2 | h2 <;> rw [h1, h2]
      · exact List.mem_cons_self _ _
      · exact List.mem_cons_of_mem _ (List.mem_cons_self _ _)
    · exact List.mem_cons_of_mem _ (List.mem_cons_of_mem _ h1)

theorem minStart_le (s0 : Span) (rest : List Span) :
    ∀ s ∈ s0 :: rest, jsMinList s0.startTime (rest.map Span.startTime) ≤ s.startTime := by
  intro s hs
  apply jsMinList_le
  rcases List.mem_cons.mp hs with rfl | hs'
  · exact List.mem_cons_self _ _
  · exact List.mem_cons_of_mem _ (List.mem_map_of_mem Span.startTime hs')

theorem minStart_achieved (s0 : Span) (rest : List Span) :
    ∃ s ∈ s0 :: rest, s.startTime = jsMinList s0.startTime (rest.map Span.startTime) := by
  rcases List.mem_cons.mp (jsMinList_mem s0.startTime (rest.map Span.startTime)) with h | h
  · exact ⟨s0, List.mem_cons_self _ _, h.symm⟩
  · obtain ⟨s, hs, hval⟩ := List.mem_map.mp h
    exact ⟨s, List.mem_cons_of_mem _ hs, hval⟩

theorem layoutOne_span (m T : ℚ) (s : Span) : (layoutOne m T s).span = s := rfl

theorem layoutOne_offsetPercent (m T : ℚ) (s : Span) :
    (layoutOne m T s).offsetPercent =
      if 0 < T then (s.startTime - m) / T * 100 else 0 := rfl

theorem layoutOne_widthPercent (m T : ℚ) (s : Span) :
    (layoutOne m T s).widthPercent =
      max (if 0 < T then s.durationMs / T * 100 else 0) (1/2) := rfl

/- ======================  claim theorems  ====================== -/

/-- Claim C1: for every span list and every `totalDurationMs > 0`, the
waterfall layout assigns each span
`offsetPercent = (spanStart - minStart) / totalDurationMs * 100`, where
`minStart` is the minimum start time computed once over the full input set,
and `widthPercent = max(durationMs / totalDurationMs * 100, 0.5)`.
The minimum is characterised abstractly: any `m` that occurs among the start
times and bounds them all from below. -/
theorem processedSpans_formula (spans : List Span) (totalDuration : ℚ)
    (ht : 0 < totalDuration) (m : ℚ)
    (hmem : m ∈ spans.map Span.startTime)
    (hle : ∀ s ∈ spans, m ≤ s.startTime) :
    processedSpans spans totalDuration =
      spans.map (fun s =>
        ⟨s, (s.startTime - m) / totalDuration * 100,
          max (s.durationMs / totalDuration * 100) (1/2)⟩) := by
  cases spans with
  | nil => simp at hmem
  | cons s0 rest =>
    have hm_eq : m = jsMinList s0.startTime (rest.map Span.startTime) := by
      apply le_antisymm
      · obtain ⟨s, hs, hsM⟩ := minStart_achieved s0 rest
        exact hsM ▸ hle s hs
      · exact jsMinList_le _ _ m (by simpa using hmem)
    rw [processedSpans]
    apply List.map_congr_left
    intro s _
    rw [← hm_eq]
    refine WaterfallSpan.ext rfl ?_ ?_
    · rw [layoutOne_offsetPercent, if_pos ht]
    · rw [layoutOne_widthPercent, if_pos ht]

/-- Claim C1 witness: concrete two-span input evaluated through the theorem. -/
theorem processedSpans_formula_witness :
    processedSpans [spanA, spanB] 100 =
      [spanA, spanB].map (fun s =>
        ⟨s, (s.startTime - 10) / 100 * 100, max (s.durationMs / 100 * 100) (1/2)⟩) :=
  processedSpans_formula [spanA, spanB] 100 (by norm_num) 10
    (by norm_num [spanA, spanB])
    (by
      intro s hs
      simp only [List.mem_cons, List.not_mem_nil, or_false] at hs
      rcases hs with rfl | rfl <;> norm_num [spanA, spanB])

/-- Claim C2: for every valid span processed by the waterfall layout — validity
meaning the trace's `totalDurationMs` covers the spread of start times, as
implied by the data model (`totalDurationMs` runs from earliest start to
latest end) — the resulting `offsetPercent` lies in `[0, 100]` and the
resulting `widthPercent` is at least `0.5`, hence never `0`. -/
theorem processedSpans_bounds (spans : List Span) (totalDuration : ℚ)
    (hcov : ∀ s ∈ spans, ∀ t ∈ spans, s.startTime - t.startTime ≤ totalDuration) :
    ∀ w ∈ processedSpans spans totalDuration,
      (0 ≤ w.offsetPercent ∧ w.offsetPercent ≤ 100) ∧ (1/2 : ℚ) ≤ w.widthPercent := by
  cases spans with
  | nil => intro w hw; simp [processedSpans] at hw
  | cons s0 rest =>
    intro w hw
    rw [processedSpans] at hw
    obtain ⟨s, hs, rfl⟩ := List.mem_map.mp hw
    refine ⟨?_, ?_⟩
    · rw [layoutOne_offsetPercent]
      by_cases ht : 0 < totalDuration
      · rw [if_pos ht]
        have h0 : jsMinList s0.startTime (rest.map Span.startTime) ≤ s.startTime :=
          minStart_le s0 rest s hs
        obtain ⟨t0, ht0, ht0M⟩ := minStart_achieved s0 rest
        have h1 : s.startTime - jsMinList s0.startTime (rest.map Span.startTime) ≤
            totalDuration := ht0M ▸ hcov s hs t0 ht0
        constructor
        · have := div_nonneg (sub_nonneg.mpr h0) (le_of_lt ht)
          nlinarith
        · have h2 : (s.startTime - jsMinList s0.startTime (rest.map Span.startTime)) /
              totalDuration ≤ 1 := (div_le_one ht).mpr h1
          nlinarith
      · rw [if_neg ht]
        norm_num
    · rw [layoutOne_widthPercent]
      exact le_max_right _ _

/-- Claim C2 witness: in the concrete two-span trace with covering total
duration 100 ms, the row produced for `spanA` satisfies the bounds. -/
theorem processedSpans_bounds_witness :
    (0 ≤ wA.offsetPercent ∧ wA.offsetPercent ≤ 100) ∧ (1/2 : ℚ) ≤ wA.widthPercent :=
  processedSpans_bounds [spanA, spanB] 100
    (by
      intro s hs t ht
      simp only [List.mem_cons, List.not_mem_nil, or_false] at hs ht
      rcases hs with rfl | rfl <;> rcases ht with rfl | rfl <;> norm_num [spanA, spanB])
    wA (by rw [processedSpans]; exact List.mem_map_of_mem _ (List.mem_cons_self _ _))

/-- Claim C3: if `totalDurationMs = 0`, the waterfall layout gives every span
in the input `offsetPercent = 0` and `widthPercent = 0.5` (the floor), and the
computation is total — no error is raised. -/
theorem processedSpans_zero_total (spans : List Span) :
    processedSpans spans 0 = spans.map (fun s => ⟨s, 0, 1/2⟩) := by
  cases spans with
  | nil => rfl
  | cons s0 rest =>
    rw [processedSpans]
    apply List.map_congr_left
    intro s _
    refine WaterfallSpan.ext rfl ?_ ?_
    · rw [layoutOne_offsetPercent, if_neg (lt_irrefl 0)]
    · rw [layoutOne_widthPercent, if_neg (lt_irrefl 0)]
      norm_num

/-- Claim C4: the waterfall layout preserves input order: stripping the
geometry annotation from the output returns exactly the input list, so no
span is reordered, dropped, duplicated, or nested. -/
theorem processedSpans_preserves_input (spans : List Span) (totalDuration : ℚ) :
    (processedSpans spans totalDuration).map WaterfallSpan.span = spans := by
  cases spans with
  | nil => rfl
  | cons s0 rest =>
    rw [processedSpans, List.map_map]
    have h : WaterfallSpan.span ∘
        layoutOne (jsMinList s0.startTime (rest.map Span.startTime)) totalDuration =
        id := funext fun s => rfl
    rw [h, List.map_id]

/-- Claim C9: for the empty span list, the waterfall layout returns the empty
list for every value of `totalDurationMs`. -/
theorem processedSpans_empty (totalDuration : ℚ) :
    processedSpans [] totalDuration = [] := rfl

/-- Claim C10: for every non-empty span list with `totalDurationMs > 0`, every
span's `offsetPercent` is nonnegative (the formula needs no clamping, since
offsets are measured relative to the computed minimum), and some span whose
start time equals the minimum gets `offsetPercent` exactly `0`. -/
theorem processedSpans_min_offset (spans : List Span) (totalDuration : ℚ)
    (hne : spans ≠ []) (ht : 0 < totalDuration) :
    (∀ w ∈ processedSpans spans totalDuration, 0 ≤ w.offsetPercent) ∧
      ∃ w ∈ processedSpans spans totalDuration,
        (∀ s ∈ spans, w.span.startTime ≤ s.startTime) ∧ w.offsetPercent = 0 := by
  cases spans with
  | nil => exact absurd rfl hne
  | cons s0 rest =>
    constructor
    · intro w hw
      rw [processedSpans] at hw
      obtain ⟨s, hs, rfl⟩ := List.mem_map.mp hw
      rw [layoutOne_offsetPercent, if_pos ht]
      have h0 : jsMinList s0.startTime (rest.map Span.startTime) ≤ s.startTime :=
        minStart_le s0 rest s hs
      have := div_nonneg (sub_nonneg.mpr h0) (le_of_lt ht)
      nlinarith
    · obtain ⟨t0, ht0, ht0M⟩ := minStart_achieved s0 rest
      refine ⟨layoutOne (jsMinList s0.startTime (rest.map Span.startTime)) totalDuration t0,
        ?_, ?_, ?_⟩
      · rw [processedSpans]
        exact List.mem_map_of_mem _ ht0
      · intro s hs
        rw [layoutOne_span, ht0M]
        exact minStart_le s0 rest s hs
      · rw [layoutOne_offsetPercent, if_pos ht, ht0M]
        simp

/-- Claim C10 witness: concrete two-span input; the earliest span sits at
offset exactly 0. -/
theorem processedSpans_min_offset_witness :
    (∀ w ∈ processedSpans [spanA, spanB] 100, 0 ≤ w.offsetPercent) ∧
      ∃ w ∈ processedSpans [spanA, spanB] 100,
        (∀ s ∈ [spanA, spanB], w.span.startTime ≤ s.startTime) ∧ w.offsetPercent = 0 :=
  processedSpans_min_offset [spanA, spanB] 100 (by simp) (by norm_num)

/- ======================  tree-view lemmas  ====================== -/

theorem initM_eq (t : SpanTree) :
    initM t = MTree.node t true (initMList t.children) := by
  cases t
  rfl

theorem toggleKids_twice (p : List ℕ) :
    ∀ (kids : List MTree) (i : ℕ) (k : MTree),
      kids.get? i = some k → toggleAt p (toggleAt p k) = k →
      toggleKids i p (toggleKids i p kids) = kids := by
  intro kids
  induction kids with
  | nil =>
    intro i k hk _
    simp [List.get?] at hk
  | cons m ms ih =>
    intro i k hk hkk
    cases i with
    | zero =>
      rw [List.get?_cons_zero] at hk
      injection hk with hk
      subst hk
      simp [toggleKids, hkk]
    | succ n =>
      rw [List.get?_cons_succ] at hk
      simp [toggleKids]
      exact ih n k hk hkk

theorem toggleAt_twice_of_fresh (p : List ℕ) :
    ∀ (m sub : MTree), nodeAtM p m = some sub → sub = initM sub.tree →
      toggleAt p (toggleAt p m) = m := by
  induction p with
  | nil =>
    intro m sub hsub hfresh
    simp [nodeAtM] at hsub
    subst hsub
    cases m with
    | node t e kids =>
      rw [MTree.tree, initM_eq] at hfresh
      injection hfresh with _ h2 h3
      subst h2
      rw [toggleAt, if_pos rfl, toggleAt, if_neg (by simp), ← h3]
  | cons i p ih =>
    intro m sub hsub hfresh
    cases m with
    | node t e kids =>
      rw [nodeAtM] at hsub
      cases hk : kids.get? i with
      | none => rw [hk] at hsub; exact absurd hsub (by simp)
      | some k =>
        rw [hk] at hsub
        have hkk : toggleAt p (toggleAt p k) = k := ih k sub hsub hfresh
        rw [toggleAt, toggleAt]
        exact congrArg (MTree.node t e) (toggleKids_twice p kids i k hk hkk)

theorem mem_renderDepthsList (cs : List SpanTree) (d : ℕ) (x : String × ℕ) :
    x ∈ renderDepthsList cs d ↔ ∃ c ∈ cs, x ∈ renderDepths c d := by
  induction cs with
  | nil => simp [renderDepthsList]
  | cons c cs ih => simp [renderDepthsList, List.mem_append, ih]

theorem SpanTree.indOn {P : SpanTree → Prop}
    (h : ∀ s cs, (∀ c ∈ cs, P c) → P (SpanTree.node s cs)) : ∀ t, P t
  | SpanTree.node s cs => h s cs (fun c hc => SpanTree.indOn h c)
termination_by t => sizeOf t
decreasing_by
  have := List.sizeOf_lt_of_mem hc
  simp
  omega

theorem renderDepths_mem_iff (t : SpanTree) :
    ∀ (d : ℕ) (x : String × ℕ),
      x ∈ renderDepths t d ↔
        ∃ p t', nodeAtT p t = some t' ∧ x = ((t'.span).spanId, d + p.length) := by
  refine @SpanTree.indOn
    (fun t => ∀ (d : ℕ) (x : String × ℕ),
      x ∈ renderDepths t d ↔
        ∃ p t', nodeAtT p t = some t' ∧ x = ((t'.span).spanId, d + p.length)) ?_ t
  intro s cs ih d x
  constructor
  · intro hx
    rw [renderDepths] at hx
    rcases List.mem_cons.mp hx with rfl | hx'
    · exact ⟨[], SpanTree.node s cs, rfl, rfl⟩
    · obtain ⟨c, hc, hxc⟩ := (mem_renderDepthsList cs (d + 1) x).mp hx'
      obtain ⟨p, t', hnode, hx_eq⟩ := (ih c hc (d + 1) x).mp hxc
      obtain ⟨i, hi⟩ := List.mem_iff_get?.mp hc
      refine ⟨i :: p, t', ?_, ?_⟩
      · have hi' : (SpanTree.node s cs).children.get? i = some c := by
          rw [SpanTree.children]; exact hi
        rw [nodeAtT, hi']
        exact hnode
      · rw [hx_eq]
        refine congrArg _ ?_
        simp [List.length_cons]
        omega
  · rintro ⟨p, t', hnode, rfl⟩
    cases p with
    | nil =>
      rw [nodeAtT] at hnode
      injection hnode with hnode
      subst hnode
      rw [renderDepths]
      simp [SpanTree.span]
    | cons i p' =>
      rw [nodeAtT] at hnode
      cases hi : (SpanTree.node s cs).children.get? i with
      | none => rw [hi] at hnode; exact absurd hnode (by simp)
      | some c =>
        rw [hi] at hnode
        rw [SpanTree.children] at hi
        have hcmem := List.get?_mem hi
        rw [renderDepths]
        apply List.mem_cons_of_mem
        apply (mem_renderDepthsList cs (d + 1) _).mpr
        refine ⟨c, hcmem, (ih c hcmem (d + 1) _).mpr ⟨p', t', hnode, ?_⟩⟩
        refine congrArg _ ?_
        simp [List.length_cons]
        omega

/- ======================  tree-view claim theorems  ====================== -/

/-- Claim C5: in the tree projection, a node's children are rendered if and
only if the node has at least one child AND the node's `expanded` flag is
true; when the flag is false the node renders alone — the entire subtree is
hidden regardless of whatever state the mounted children carry. -/
theorem treeNode_children_rendered (t : SpanTree) (e : Bool) (kids : List MTree) :
    (e = false → visibleIds (MTree.node t e kids) = [(t.span).spanId]) ∧
    (t.children = [] → visibleIds (MTree.node t e kids) = [(t.span).spanId]) ∧
    (t.children ≠ [] → e = true →
      visibleIds (MTree.node t e kids) = (t.span).spanId :: visibleIdsList kids) := by
  refine ⟨?_, ?_, ?_⟩
  · rintro rfl
    simp [visibleIds]
  · intro h
    simp [visibleIds, h]
  · intro h he
    subst he
    simp [visibleIds, h]

/-- Claim C5 witness: a collapsed node with one mounted child renders alone;
a childless node renders alone; an expanded node with a child renders it. -/
theorem treeNode_children_rendered_witness :
    visibleIds (MTree.node tB false [initM tC]) = ["B"] ∧
    visibleIds (MTree.node tC true []) = ["C"] ∧
    visibleIds (MTree.node tB true [initM tC]) = "B" :: visibleIdsList [initM tC] :=
  ⟨(treeNode_children_rendered tB false [initM tC]).1 rfl,
   (treeNode_children_rendered tC true []).2.1 rfl,
   (treeNode_children_rendered tB true [initM tC]).2.2 (List.cons_ne_nil tC []) rfl⟩

/-- Claim C6 counterexample: in the chain A → B → C, collapse B, then toggle
A twice. Before: visible nodes are A and B (C hidden under collapsed B).
After: A, B and C are all visible, because collapsing A unmounted B's
component and re-expanding remounted it with the default `useState(true)` —
the collapsed flag on B was NOT preserved. The claim as stated is false. -/
theorem toggle_twice_counterexample :
    visibleIds (toggleAt [] (toggleAt [] (toggleAt [0] (initM tA)))) ≠
      visibleIds (toggleAt [0] (initM tA)) := by
  decide

/-- Claim C6 (amended): toggling a node's expand state twice returns the
tree's visible-node set (indeed the whole mount state) to its original
contents PROVIDED every node in the toggled node's subtree was in the
default expanded state before the first toggle. In general, descendants'
expand flags are NOT preserved while the node is collapsed: React unmounts
the collapsed subtree's components, and re-expanding remounts them with the
default `expanded = true`. -/
theorem toggle_twice_on_fresh_subtree (m : MTree) (p : List ℕ) (sub : MTree)
    (hsub : nodeAtM p m = some sub) (hfresh : sub = initM sub.tree) :
    toggleAt p (toggleAt p m) = m ∧
      visibleIds (toggleAt p (toggleAt p m)) = visibleIds m := by
  have h := toggleAt_twice_of_fresh p m sub hsub hfresh
  exact ⟨h, by rw [h]⟩

/-- Claim C6 (amended) witness: from the freshly mounted chain A → B → C,
toggling B twice restores the initial mount state. -/
theorem toggle_twice_on_fresh_subtree_witness :
    toggleAt [0] (toggleAt [0] (initM tA)) = initM tA ∧
      visibleIds (toggleAt [0] (toggleAt [0] (initM tA))) = visibleIds (initM tA) :=
  toggle_twice_on_fresh_subtree (initM tA) [0] (initM tB) rfl rfl

/-- Claim C7: if any span in the trace has `status = ERROR`, the aggregate
status shown at the top level is `ERROR` (spec-modelled server derivation),
and the per-span error list shown (function name, error code, error message)
equals the flat span list filtered to `status = ERROR`; its contents are
characterised by the flat list alone, independent of tree nesting. -/
theorem errors_in_trace (spans : List Span)
    (h : ∃ s ∈ spans, s.status = Status.error) :
    aggregateStatus spans = Status.error ∧
      errorList spans =
        (spans.filter (fun s => decide (s.status = Status.error))).map
          (fun s => (s.functionName, s.errorCode, s.errorMessage)) ∧
      ∀ x, x ∈ errorList spans ↔
        ∃ s ∈ spans, s.status = Status.error ∧
          x = (s.functionName, s.errorCode, s.errorMessage) := by
  refine ⟨?_, rfl, ?_⟩
  · rw [aggregateStatus, if_pos]
    rw [List.any_eq_true]
    obtain ⟨s, hs, hstat⟩ := h
    exact ⟨s, hs, by simp [hstat]⟩
  · intro x
    constructor
    · intro hx
      rw [errorList] at hx
      obtain ⟨s, hs, rfl⟩ := List.mem_map.mp hx
      have hf := List.mem_filter.mp hs
      exact ⟨s, hf.1, of_decide_eq_true hf.2, rfl⟩
    · rintro ⟨s, hs, hstat, rfl⟩
      rw [errorList]
      exact List.mem_map_of_mem _ (List.mem_filter.mpr ⟨hs, decide_eq_true hstat⟩)

/-- Claim C7 witness: a trace with one successful and one errored span. -/
theorem errors_in_trace_witness :
    aggregateStatus [spanA, spanE] = Status.error ∧
      errorList [spanA, spanE] =
        (([spanA, spanE].filter (fun s => decide (s.status = Status.error))).map
          (fun s => (s.functionName, s.errorCode, s.errorMessage))) ∧
      ∀ x, x ∈ errorList [spanA, spanE] ↔
        ∃ s ∈ [spanA, spanE], s.status = Status.error ∧
          x = (s.functionName, s.errorCode, s.errorMessage) :=
  errors_in_trace [spanA, spanE] ⟨spanE, by simp, rfl⟩

/-- Claim C8: in the rendered tree, a pair `(spanId, depth)` is rendered if
and only if the forest has that node at distance `depth` from its root:
`TreeView` renders roots at depth 0 and every `TreeNode` renders children at
its own depth + 1, so depth equals distance from a root for every input
forest. -/
theorem renderedForest_depth_is_distance (f : List SpanTree) :
    ∀ x : String × ℕ,
      x ∈ renderDepthsList f 0 ↔
        ∃ i p t', nodeAtForest f i p = some t' ∧ x = ((t'.span).spanId, p.length) := by
  intro x
  rw [mem_renderDepthsList]
  constructor
  · rintro ⟨c, hc, hx⟩
    obtain ⟨i, hi⟩ := List.mem_iff_get?.mp hc
    obtain ⟨p, t', hnode, hx_eq⟩ := (renderDepths_mem_iff c 0 x).mp hx
    exact ⟨i, p, t', by simp only [nodeAtForest]; rw [hi]; exact hnode,
      by simpa using hx_eq⟩
  · rintro ⟨i, p, t', hnode, rfl⟩
    rw [nodeAtForest] at hnode
    cases hi : f.get? i with
    | none => rw [hi] at hnode; exact absurd hnode (by simp)
    | some c =>
      rw [hi] at hnode
      exact ⟨c, List.get?_mem hi,
        (renderDepths_mem_iff c 0 _).mpr ⟨p, t', hnode, by simp⟩⟩

/-- Claim C8 witness: in the chain A → B → C, node C is rendered at depth 2,
its distance from the root. -/
theorem renderedForest_depth_witness :
    ("C", 2) ∈ renderDepthsList [tA] 0 :=
  (renderedForest_depth_is_distance [tA] ("C", 2)).mpr ⟨0, [0, 0], tC, rfl, rfl⟩
